import Mathlib

/-!
Verification of `Headerfile.h` (S-A-Adit/Forage_Projects).

The file has two independent parts:
* `game_combat_system.h`: a declarations-only class hierarchy (characters,
  health/mana components, abilities).  The header declares every method but
  provides no body, so the behaviour of each method is modelled from the
  specification; each such definition carries a doc comment starting with
  `Modelled from the spec:`.
* a console inventory manager (`Item`, `Inventory`, `main`), whose bodies are
  present in the source and are embedded directly.

C++ `int` is modelled as `Int` (no overflow is relevant at the scales of the
claims), and C++ `float` prices as `Rat` (no claim depends on floating-point
rounding: prices are only stored, compared and discarded).
-/

namespace Combat

/-- The `HealthComponent` base class fields: `currentHealth`, `maxHealth`. -/
structure HealthComponent where
  currentHealth : Int
  maxHealth : Int
deriving DecidableEq

/-- Modelled from the spec: the header declares the constructor
`HealthComponent(int maxHp)` with no body; per the spec's scenarios a fresh
component starts with a full pool ("health 100/100"). -/
def HealthComponent.fresh (maxHp : Int) : HealthComponent :=
  { currentHealth := maxHp, maxHealth := maxHp }

/-- Modelled from the spec: `StandardHealth::takeDamage` has no body in the
header; the spec says StandardHealth "subtracts amount directly (floored at 0)". -/
def StandardHealth.takeDamage (h : HealthComponent) (amount : Int) : HealthComponent :=
  { h with currentHealth := max (h.currentHealth - amount) 0 }

/-- Modelled from the spec: `ArmoredHealth::takeDamage` has no body in the
header; the spec says ArmoredHealth "applies an unspecified reduction function
before subtracting (floored at 0)".  The unspecified reduction function is the
parameter `red`. -/
def ArmoredHealth.takeDamage (red : Int → Int) (h : HealthComponent) (amount : Int) :
    HealthComponent :=
  { h with currentHealth := max (h.currentHealth - red amount) 0 }

/-- Modelled from the spec: `HealthComponent::heal` has no body; the spec says
heal "raises currentHealth, capped at maxHealth". -/
def HealthComponent.heal (h : HealthComponent) (amount : Int) : HealthComponent :=
  { h with currentHealth := min (h.currentHealth + amount) h.maxHealth }

/-- Modelled from the spec: `isAlive` is "true iff currentHealth > 0". -/
def HealthComponent.isAlive (h : HealthComponent) : Bool :=
  h.currentHealth > 0

/-- The `ManaComponent` base class fields: `currentMana`, `maxMana`. -/
structure ManaComponent where
  currentMana : Int
  maxMana : Int
deriving DecidableEq

/-- Modelled from the spec: the header declares the constructor
`ManaComponent(int maxResource)` with no body; a fresh component starts with a
full pool. -/
def ManaComponent.fresh (maxResource : Int) : ManaComponent :=
  { currentMana := maxResource, maxMana := maxResource }

/-- Modelled from the spec: `ArcaneMana::consumeMana` has no body in the header;
the spec says consumeMana "succeeds (mutates pool downward, returns true) only
if amount ≤ currentMana; otherwise leaves state unchanged and returns false". -/
def ArcaneMana.consumeMana (m : ManaComponent) (amount : Int) : Bool × ManaComponent :=
  if amount ≤ m.currentMana then
    (true, { m with currentMana := m.currentMana - amount })
  else
    (false, m)

/-- Modelled from the spec: `RageEnergy::consumeMana` has no body in the header;
the spec gives the same contract as for ArcaneMana. -/
def RageEnergy.consumeMana (m : ManaComponent) (amount : Int) : Bool × ManaComponent :=
  if amount ≤ m.currentMana then
    (true, { m with currentMana := m.currentMana - amount })
  else
    (false, m)

/-- Modelled from the spec: `ArcaneMana::regenerateMana` has no body; the spec
says regenerateMana "raises pool, capped at maxResource". -/
def ArcaneMana.regenerateMana (m : ManaComponent) (amount : Int) : ManaComponent :=
  { m with currentMana := min (m.currentMana + amount) m.maxMana }

/-- Modelled from the spec: `RageEnergy::regenerateMana` has no body; same
contract as ArcaneMana's (the trigger, combat events, is the caller's concern). -/
def RageEnergy.regenerateMana (m : ManaComponent) (amount : Int) : ManaComponent :=
  { m with currentMana := min (m.currentMana + amount) m.maxMana }

/-- Which concrete `HealthComponent` subclass a character carries; the armored
variant carries its (spec-unspecified) damage reduction function. -/
inductive HealthKind where
  | standard : HealthKind
  | armored (red : Int → Int) : HealthKind

/-- Virtual dispatch of `takeDamage` over the two header subclasses. -/
def HealthKind.takeDamage : HealthKind → HealthComponent → Int → HealthComponent
  | .standard, h, amount => StandardHealth.takeDamage h amount
  | .armored red, h, amount => ArmoredHealth.takeDamage red h amount

/-- Which concrete `ManaComponent` subclass a character carries. -/
inductive ManaKind where
  | arcane : ManaKind
  | rage : ManaKind
deriving DecidableEq

/-- Virtual dispatch of `consumeMana` over the two header subclasses. -/
def ManaKind.consumeMana : ManaKind → ManaComponent → Int → Bool × ManaComponent
  | .arcane, m, amount => ArcaneMana.consumeMana m amount
  | .rage, m, amount => RageEnergy.consumeMana m amount

/-- The payload distinguishing the four `Ability` subclasses in the header:
`MeleeAttack` (baseDamage), `SpellCast` (spellEffect), `Buff` and `Debuff`
(effectDescription, duration). -/
inductive AbilityKind where
  | meleeAttack (baseDamage : Int) : AbilityKind
  | spellCast (spellEffect : String) : AbilityKind
  | buff (effectDescription : String) (duration : Int) : AbilityKind
  | debuff (effectDescription : String) (duration : Int) : AbilityKind

/-- The `Ability` base class fields: `name`, `resourceCost`, `cooldown`,
plus the subclass payload. -/
structure Ability where
  name : String
  resourceCost : Int
  cooldown : Int
  kind : AbilityKind

/-- Modelled from the spec: a temporary modifier recorded on a target by a
Buff/Debuff `apply`, "keyed by (ability, target, duration)"; stored on the
target itself, so the key is the ability name and the duration. -/
structure Modifier where
  abilityName : String
  duration : Int
deriving DecidableEq

/-- The `Character` class: name, level, one health component, one mana
component, an owned ordered collection of abilities, and the Buff/Debuff
modifier tracking the spec leaves "to the target". -/
structure Character where
  name : String
  level : Int
  healthKind : HealthKind
  health : HealthComponent
  manaKind : ManaKind
  mana : ManaComponent
  abilities : List Ability
  activeModifiers : List Modifier

/-- Error taxonomy of the spec: `InsufficientResource`, `AbilityNotFound`. -/
inductive Condition where
  | insufficientResource : Condition
  | abilityNotFound : Condition
deriving DecidableEq

/-- Modelled from the spec: `Buff::apply` has no body in the header; it
"records a temporary modifier" on the target. -/
def Buff.apply (abilityName : String) (duration : Int) (target : Character) : Character :=
  { target with activeModifiers := ⟨abilityName, duration⟩ :: target.activeModifiers }

/-- Removes the most recently recorded occurrence of a modifier key. -/
def removeFirstModifier (key : Modifier) : List Modifier → List Modifier
  | [] => []
  | m :: rest => if m = key then rest else m :: removeFirstModifier key rest

/-- Modelled from the spec: `Buff::remove` has no body in the header; it
"reverses" the modifier recorded by `apply`. -/
def Buff.remove (abilityName : String) (duration : Int) (target : Character) : Character :=
  { target with
    activeModifiers := removeFirstModifier ⟨abilityName, duration⟩ target.activeModifiers }

/-- Modelled from the spec: `Debuff::apply`, same recording mechanism as Buff. -/
def Debuff.apply (abilityName : String) (duration : Int) (target : Character) : Character :=
  { target with activeModifiers := ⟨abilityName, duration⟩ :: target.activeModifiers }

/-- Modelled from the spec: `Debuff::remove`, same reversal as Buff. -/
def Debuff.remove (abilityName : String) (duration : Int) (target : Character) : Character :=
  { target with
    activeModifiers := removeFirstModifier ⟨abilityName, duration⟩ target.activeModifiers }

/-- Modelled from the spec: `DamageCalculator::calculateDamage` has no body and
"current scope defines no concrete formula", so the calculator is an arbitrary
pure function of (ability, caster, target). -/
def DamageCalculator : Type :=
  Ability → Character → Character → Int

/-- Modelled from the spec: `activate` has no body for any `Ability` subclass;
the spec's per-activation state machine is: (1) consume `resourceCost` from the
caster's pool, aborting with InsufficientResource and no further effects when
it returns false; (2/3) for damage-dealing kinds, compute the magnitude via the
DamageCalculator and apply it via the target health's `takeDamage`; (4) for
Buff/Debuff, `apply` to the target. -/
def Ability.activate (ab : Ability) (dc : DamageCalculator) (caster target : Character) :
    Except Condition (Character × Character) :=
  let res := caster.manaKind.consumeMana caster.mana ab.resourceCost
  if res.fst then
    let caster1 := { caster with mana := res.snd }
    match ab.kind with
    | .meleeAttack _ =>
      .ok (caster1,
        { target with health := target.healthKind.takeDamage target.health (dc ab caster target) })
    | .spellCast _ =>
      .ok (caster1,
        { target with health := target.healthKind.takeDamage target.health (dc ab caster target) })
    | .buff _ dur => .ok (caster1, Buff.apply ab.name dur target)
    | .debuff _ dur => .ok (caster1, Debuff.apply ab.name dur target)
  else
    .error .insufficientResource

/-- `Character::findAbility`: looks up an owned ability by exact string match
(the header declares it; lookup by name is the documented semantics). -/
def Character.findAbility (c : Character) (abilityName : String) : Option Ability :=
  c.abilities.find? (fun ab => ab.name == abilityName)

/-- Modelled from the spec: `Character::useAbility` has no body in the header;
the spec says it looks up the named ability among owned abilities, fails with
AbilityNotFound and performs no effect when absent, and otherwise delegates to
the ability's activation. -/
def Character.useAbility (c : Character) (dc : DamageCalculator) (abilityName : String)
    (target : Character) : Except Condition (Character × Character) :=
  match c.findAbility abilityName with
  | none => .error .abilityNotFound
  | some ab => ab.activate dc c target

end Combat

namespace Combat

/-- Claim C1: for both mana variants, `consumeMana amount` returns `true` and
decrements `currentMana` by exactly `amount` when `amount ≤ currentMana`, and
returns `false` leaving the component unchanged when `amount > currentMana`. -/
theorem consumeMana_contract (m : ManaComponent) (amount : Int) :
    (amount ≤ m.currentMana →
      ArcaneMana.consumeMana m amount =
        (true, { m with currentMana := m.currentMana - amount }) ∧
      RageEnergy.consumeMana m amount =
        (true, { m with currentMana := m.currentMana - amount })) ∧
    (m.currentMana < amount →
      ArcaneMana.consumeMana m amount = (false, m) ∧
      RageEnergy.consumeMana m amount = (false, m)) := by
  constructor
  · intro hle
    constructor <;> simp [ArcaneMana.consumeMana, RageEnergy.consumeMana, hle]
  · intro hgt
    have hnot : ¬ amount ≤ m.currentMana := not_le.mpr hgt
    constructor <;> simp [ArcaneMana.consumeMana, RageEnergy.consumeMana, hnot]

/-- Witness for C1 at a concrete component (the spec's scenario: mana 20/50,
cost 30 fails unchanged; a cost of 5 succeeds and leaves 15). -/
theorem consumeMana_contract_witness :
    (ArcaneMana.consumeMana ⟨20, 50⟩ 30 = (false, ⟨20, 50⟩) ∧
      RageEnergy.consumeMana ⟨20, 50⟩ 30 = (false, ⟨20, 50⟩)) ∧
    (ArcaneMana.consumeMana ⟨20, 50⟩ 5 = (true, ⟨15, 50⟩) ∧
      RageEnergy.consumeMana ⟨20, 50⟩ 5 = (true, ⟨15, 50⟩)) := by
  refine ⟨(consumeMana_contract ⟨20, 50⟩ 30).2 (by decide), ?_⟩
  have h := (consumeMana_contract ⟨20, 50⟩ 5).1 (by decide)
  simpa using h

/-- Claim C2: an activation whose resource consumption fails aborts with
InsufficientResource and produces no mutated state; an activation whose
consumption succeeds commits, and every committed result carries exactly the
consumed caster pool, so consumption happens-before every effect and the
activation is transactional. -/
theorem activate_transactional (dc : DamageCalculator) (ab : Ability)
    (caster target : Character) :
    ((caster.manaKind.consumeMana caster.mana ab.resourceCost).fst = false →
      ab.activate dc caster target = .error .insufficientResource) ∧
    ((caster.manaKind.consumeMana caster.mana ab.resourceCost).fst = true →
      (ab.activate dc caster target).isOk = true) ∧
    (∀ caster1 target1, ab.activate dc caster target = .ok (caster1, target1) →
      caster1 =
        { caster with mana := (caster.manaKind.consumeMana caster.mana ab.resourceCost).snd }) := by
  refine ⟨fun hfail => ?_, fun hok => ?_, fun caster1 target1 heq => ?_⟩
  · simp [Ability.activate, hfail]
  · cases hk : ab.kind <;> simp [Ability.activate, hok, hk, Except.isOk, Except.toBool]
  · by_cases hc : (caster.manaKind.consumeMana caster.mana ab.resourceCost).fst
    · revert heq
      cases hk : ab.kind <;> simp [Ability.activate, hc, hk] <;> intro h1 _ <;> exact h1.symm
    · simp [Ability.activate, hc] at heq

/-- Witness for C2: the spec's scenario - a caster at mana 20/50 cannot pay a
cost of 30 (activation reports InsufficientResource), while a caster at 50/50
can; the committed caster state carries the consumed pool. -/
theorem activate_transactional_witness :
    Ability.activate ⟨"Fireball", 30, 0, .spellCast "fire"⟩ (fun _ _ _ => 10)
      ⟨"B", 1, .standard, ⟨100, 100⟩, .arcane, ⟨20, 50⟩, [], []⟩
      ⟨"T", 1, .standard, ⟨100, 100⟩, .arcane, ⟨50, 50⟩, [], []⟩ =
        .error .insufficientResource ∧
    (Ability.activate ⟨"Fireball", 30, 0, .spellCast "fire"⟩ (fun _ _ _ => 10)
      ⟨"R", 1, .standard, ⟨100, 100⟩, .arcane, ⟨50, 50⟩, [], []⟩
      ⟨"T", 1, .standard, ⟨100, 100⟩, .arcane, ⟨50, 50⟩, [], []⟩).isOk = true ∧
    (⟨"R", 1, .standard, ⟨100, 100⟩, .arcane, ⟨20, 50⟩, [], []⟩ : Character) =
      { (⟨"R", 1, .standard, ⟨100, 100⟩, .arcane, ⟨50, 50⟩, [], []⟩ : Character) with
        mana := (ManaKind.arcane.consumeMana ⟨50, 50⟩ 30).snd } := by
  refine ⟨(activate_transactional (fun _ _ _ => 10) ⟨"Fireball", 30, 0, .spellCast "fire"⟩
      ⟨"B", 1, .standard, ⟨100, 100⟩, .arcane, ⟨20, 50⟩, [], []⟩
      ⟨"T", 1, .standard, ⟨100, 100⟩, .arcane, ⟨50, 50⟩, [], []⟩).1 (by decide),
    (activate_transactional (fun _ _ _ => 10) ⟨"Fireball", 30, 0, .spellCast "fire"⟩
      ⟨"R", 1, .standard, ⟨100, 100⟩, .arcane, ⟨50, 50⟩, [], []⟩
      ⟨"T", 1, .standard, ⟨100, 100⟩, .arcane, ⟨50, 50⟩, [], []⟩).2.1 (by decide),
    (activate_transactional (fun _ _ _ => 10) ⟨"Fireball", 30, 0, .spellCast "fire"⟩
      ⟨"R", 1, .standard, ⟨100, 100⟩, .arcane, ⟨50, 50⟩, [], []⟩
      ⟨"T", 1, .standard, ⟨100, 100⟩, .arcane, ⟨50, 50⟩, [], []⟩).2.2
      ⟨"R", 1, .standard, ⟨100, 100⟩, .arcane, ⟨20, 50⟩, [], []⟩
      ⟨"T", 1, .standard, ⟨90, 100⟩, .arcane, ⟨50, 50⟩, [], []⟩ rfl⟩

/-- Claim C5, lookup part and delegation part: a name matching no owned ability
makes `useAbility` fail with AbilityNotFound (no mutated state is produced); a
successful lookup delegates to the found ability's activation. -/
theorem useAbility_contract (dc : DamageCalculator) (c target : Character)
    (abilityName : String) :
    ((∀ ab ∈ c.abilities, ab.name ≠ abilityName) →
      c.useAbility dc abilityName target = .error .abilityNotFound) ∧
    (∀ ab, c.findAbility abilityName = some ab →
      c.useAbility dc abilityName target = ab.activate dc c target) := by
  constructor
  · intro hnone
    have hfind : c.findAbility abilityName = none := by
      apply List.find?_eq_none.mpr
      intro ab hab
      simpa using hnone ab hab
    simp [Character.useAbility, hfind]
  · intro ab hab
    simp [Character.useAbility, hab]

/-- Witness for C5: a character owning only "Slash" - `useAbility "Fireball"`
reports AbilityNotFound, while `useAbility "Slash"` delegates to the activation
of the owned ability. -/
theorem useAbility_contract_witness :
    Character.useAbility
      ⟨"A", 1, .standard, ⟨100, 100⟩, .arcane, ⟨50, 50⟩, [⟨"Slash", 5, 0, .meleeAttack 10⟩], []⟩
      (fun _ _ _ => 10) "Fireball"
      ⟨"T", 1, .standard, ⟨100, 100⟩, .arcane, ⟨50, 50⟩, [], []⟩ =
        .error .abilityNotFound ∧
    Character.useAbility
      ⟨"A", 1, .standard, ⟨100, 100⟩, .arcane, ⟨50, 50⟩, [⟨"Slash", 5, 0, .meleeAttack 10⟩], []⟩
      (fun _ _ _ => 10) "Slash"
      ⟨"T", 1, .standard, ⟨100, 100⟩, .arcane, ⟨50, 50⟩, [], []⟩ =
      Ability.activate ⟨"Slash", 5, 0, .meleeAttack 10⟩ (fun _ _ _ => 10)
        ⟨"A", 1, .standard, ⟨100, 100⟩, .arcane, ⟨50, 50⟩, [⟨"Slash", 5, 0, .meleeAttack 10⟩], []⟩
        ⟨"T", 1, .standard, ⟨100, 100⟩, .arcane, ⟨50, 50⟩, [], []⟩ := by
  constructor
  · exact (useAbility_contract (fun _ _ _ => 10)
      ⟨"A", 1, .standard, ⟨100, 100⟩, .arcane, ⟨50, 50⟩, [⟨"Slash", 5, 0, .meleeAttack 10⟩], []⟩
      ⟨"T", 1, .standard, ⟨100, 100⟩, .arcane, ⟨50, 50⟩, [], []⟩ "Fireball").1
      (by intro ab hab; simp at hab; subst hab; decide)
  · exact (useAbility_contract (fun _ _ _ => 10)
      ⟨"A", 1, .standard, ⟨100, 100⟩, .arcane, ⟨50, 50⟩, [⟨"Slash", 5, 0, .meleeAttack 10⟩], []⟩
      ⟨"T", 1, .standard, ⟨100, 100⟩, .arcane, ⟨50, 50⟩, [], []⟩ "Slash").2
      ⟨"Slash", 5, 0, .meleeAttack 10⟩ rfl

/-- Claim C3, counterexample: the claim "for every HealthComponent variant and
every amount ≥ maxHealth, takeDamage(amount) sets currentHealth to exactly 0"
is false for the ArmoredHealth variant: the reduction function is unspecified,
and any genuinely reducing instance (here halving) leaves a full 100/100 pool
at 50 after a hit of 100. -/
theorem takeDamage_exact_zero_cex :
    ¬ (∀ (red : Int → Int) (h : HealthComponent) (amount : Int),
        h.maxHealth ≤ amount →
        (ArmoredHealth.takeDamage red h amount).currentHealth = 0) := by
  intro hall
  have h50 := hall (fun a => a / 2) ⟨100, 100⟩ 100 (by norm_num)
  simp only [ArmoredHealth.takeDamage] at h50
  norm_num at h50

/-- Claim C3 as amended: StandardHealth is driven to exactly 0 by any amount ≥
maxHealth (given currentHealth ≤ maxHealth); ArmoredHealth is driven to exactly
0 whenever the reduced amount is at least currentHealth; and for non-negative
(reduced) amounts and a non-negative pool, takeDamage never raises
currentHealth and never makes it negative, for both variants. -/
theorem takeDamage_contract_amended (h : HealthComponent) (amount : Int)
    (red : Int → Int) :
    (h.currentHealth ≤ h.maxHealth → h.maxHealth ≤ amount →
      (StandardHealth.takeDamage h amount).currentHealth = 0) ∧
    (h.currentHealth ≤ red amount →
      (ArmoredHealth.takeDamage red h amount).currentHealth = 0) ∧
    (0 ≤ h.currentHealth → 0 ≤ amount →
      (StandardHealth.takeDamage h amount).currentHealth ≤ h.currentHealth) ∧
    (0 ≤ (StandardHealth.takeDamage h amount).currentHealth) ∧
    (0 ≤ h.currentHealth → 0 ≤ red amount →
      (ArmoredHealth.takeDamage red h amount).currentHealth ≤ h.currentHealth) ∧
    (0 ≤ (ArmoredHealth.takeDamage red h amount).currentHealth) := by
  simp only [StandardHealth.takeDamage, ArmoredHealth.takeDamage]
  refine ⟨fun h1 h2 => ?_, fun h1 => ?_, fun h1 h2 => ?_, ?_, fun h1 h2 => ?_, ?_⟩
  · exact max_eq_right (by omega)
  · exact max_eq_right (by omega)
  · exact max_le (by omega) h1
  · exact le_max_right _ _
  · exact max_le (by omega) h1
  · exact le_max_right _ _

/-- Witness for the amended C3 at a full 100/100 pool, a hit of 150 and the
reduction that subtracts a flat 10. -/
theorem takeDamage_contract_amended_witness :
    (StandardHealth.takeDamage ⟨100, 100⟩ 150).currentHealth = 0 ∧
    (ArmoredHealth.takeDamage (fun a => a - 10) ⟨100, 100⟩ 150).currentHealth = 0 ∧
    (StandardHealth.takeDamage ⟨100, 100⟩ 150).currentHealth ≤ 100 ∧
    0 ≤ (StandardHealth.takeDamage ⟨100, 100⟩ 150).currentHealth ∧
    (ArmoredHealth.takeDamage (fun a => a - 10) ⟨100, 100⟩ 150).currentHealth ≤ 100 ∧
    0 ≤ (ArmoredHealth.takeDamage (fun a => a - 10) ⟨100, 100⟩ 150).currentHealth := by
  obtain ⟨h1, h2, h3, h4, h5, h6⟩ :=
    takeDamage_contract_amended ⟨100, 100⟩ 150 (fun a => a - 10)
  exact ⟨h1 (by decide) (by decide), h2 (by decide), h3 (by decide) (by decide), h4,
    h5 (by decide) (by decide), h6⟩

/-- The invariant on a health pool: 0 ≤ currentHealth ≤ maxHealth. -/
def healthInvariant (h : HealthComponent) : Prop :=
  0 ≤ h.currentHealth ∧ h.currentHealth ≤ h.maxHealth

/-- The invariant on a mana pool: 0 ≤ currentMana ≤ maxMana. -/
def manaInvariant (m : ManaComponent) : Prop :=
  0 ≤ m.currentMana ∧ m.currentMana ≤ m.maxMana

/-- Claim C4: the pool invariants hold initially (for a non-negative capacity)
and are preserved by takeDamage (both variants, with a non-negative original or
reduced amount), heal, consumeMana and regenerateMana (both variants each). -/
theorem component_invariants (h : HealthComponent) (m : ManaComponent)
    (amount maxHp maxResource : Int) (red : Int → Int) :
    (0 ≤ maxHp → healthInvariant (HealthComponent.fresh maxHp)) ∧
    (0 ≤ maxResource → manaInvariant (ManaComponent.fresh maxResource)) ∧
    (healthInvariant h → 0 ≤ amount →
      healthInvariant (StandardHealth.takeDamage h amount)) ∧
    (healthInvariant h → 0 ≤ red amount →
      healthInvariant (ArmoredHealth.takeDamage red h amount)) ∧
    (healthInvariant h → 0 ≤ amount → healthInvariant (h.heal amount)) ∧
    (manaInvariant m → 0 ≤ amount →
      manaInvariant (ArcaneMana.consumeMana m amount).snd) ∧
    (manaInvariant m → 0 ≤ amount →
      manaInvariant (RageEnergy.consumeMana m amount).snd) ∧
    (manaInvariant m → 0 ≤ amount →
      manaInvariant (ArcaneMana.regenerateMana m amount)) ∧
    (manaInvariant m → 0 ≤ amount →
      manaInvariant (RageEnergy.regenerateMana m amount)) := by
  simp only [healthInvariant, manaInvariant, HealthComponent.fresh, ManaComponent.fresh,
    StandardHealth.takeDamage, ArmoredHealth.takeDamage, HealthComponent.heal,
    ArcaneMana.consumeMana, RageEnergy.consumeMana, ArcaneMana.regenerateMana,
    RageEnergy.regenerateMana]
  refine ⟨fun h0 => ⟨h0, le_refl _⟩, fun h0 => ⟨h0, le_refl _⟩,
    fun hi ha => ?_, fun hi ha => ?_, fun hi ha => ?_,
    fun hi ha => ?_, fun hi ha => ?_, fun hi ha => ?_, fun hi ha => ?_⟩
  · exact ⟨le_max_right _ _, max_le (by omega) (by omega)⟩
  · exact ⟨le_max_right _ _, max_le (by omega) (by omega)⟩
  · exact ⟨le_min (by omega) (by omega), min_le_right _ _⟩
  · by_cases hc : amount ≤ m.currentMana
    · simp only [if_pos hc]
      exact ⟨by omega, by omega⟩
    · simp only [if_neg hc]
      exact hi
  · by_cases hc : amount ≤ m.currentMana
    · simp only [if_pos hc]
      exact ⟨by omega, by omega⟩
    · simp only [if_neg hc]
      exact hi
  · exact ⟨le_min (by omega) (by omega), min_le_right _ _⟩
  · exact ⟨le_min (by omega) (by omega), min_le_right _ _⟩

/-- Witness for C4 at concrete pools (health 70/100, mana 20/50, amount 15,
capacity 40, flat-5 reduction). -/
theorem component_invariants_witness :
    healthInvariant (HealthComponent.fresh 40) ∧
    manaInvariant (ManaComponent.fresh 40) ∧
    healthInvariant (StandardHealth.takeDamage ⟨70, 100⟩ 15) ∧
    healthInvariant (ArmoredHealth.takeDamage (fun a => a - 5) ⟨70, 100⟩ 15) ∧
    healthInvariant (HealthComponent.heal ⟨70, 100⟩ 15) ∧
    manaInvariant (ArcaneMana.consumeMana ⟨20, 50⟩ 15).snd ∧
    manaInvariant (RageEnergy.consumeMana ⟨20, 50⟩ 15).snd ∧
    manaInvariant (ArcaneMana.regenerateMana ⟨20, 50⟩ 15) ∧
    manaInvariant (RageEnergy.regenerateMana ⟨20, 50⟩ 15) := by
  obtain ⟨h1, h2, h3, h4, h5, h6, h7, h8, h9⟩ :=
    component_invariants ⟨70, 100⟩ ⟨20, 50⟩ 15 40 40 (fun a => a - 5)
  have hinvh : healthInvariant ⟨70, 100⟩ := by constructor <;> decide
  have hinvm : manaInvariant ⟨20, 50⟩ := by constructor <;> decide
  exact ⟨h1 (by decide), h2 (by decide), h3 hinvh (by decide), h4 hinvh (by decide),
    h5 hinvh (by decide), h6 hinvm (by decide), h7 hinvm (by decide),
    h8 hinvm (by decide), h9 hinvm (by decide)⟩

/-- Claim C6: applying a Buff to a target and then removing it restores the
target to exactly its observable state from before the apply. -/
theorem buff_apply_remove_roundtrip (abilityName : String) (duration : Int)
    (target : Character) :
    Buff.remove abilityName duration (Buff.apply abilityName duration target) = target := by
  simp [Buff.apply, Buff.remove, removeFirstModifier]

end Combat

namespace InventoryApp

/-- The `Item` class: name, quantity, price. -/
structure Item where
  name : String
  quantity : Int
  price : Rat
deriving DecidableEq

/-- `Item::is_match`: exact string comparison against another name. -/
def Item.is_match (it : Item) (other_name : String) : Bool :=
  it.name == other_name

/-- The `Inventory` class state: the item list and `total_money`. -/
structure Inventory where
  items : List Item
  total_money : Rat
deriving DecidableEq

/-- Core of `Inventory::add_item` after its prompts (lines 280-295): find the
first item matching the entered name with `std::find_if`; when found, set that
item's quantity to its old quantity plus the entered one; otherwise push a new
`Item(name, quantity, price)` at the back. -/
def add_item_items (items : List Item) (name : String) (quantity : Int) (price : Rat) :
    List Item :=
  match items with
  | [] => [⟨name, quantity, price⟩]
  | it :: rest =>
    if it.is_match name then
      { it with quantity := it.quantity + quantity } :: rest
    else
      it :: add_item_items rest name quantity price

/-- `Inventory::add_item` on the whole state: `total_money` is not touched. -/
def Inventory.add_item (inv : Inventory) (name : String) (quantity : Int) (price : Rat) :
    Inventory :=
  { inv with items := add_item_items inv.items name quantity price }

/-- Core of `Inventory::remove_item` at the found item (lines 336-357): when
the requested quantity is at most the current one, earn price × quantity,
decrement the quantity, and drop the entry when the new quantity is zero
(`none`); otherwise refuse the sale and change nothing. Returns the surviving
entry (if any) and the money earned. -/
def remove_item_at (item : Item) (input_quantity : Int) : Option Item × Rat :=
  if input_quantity ≤ item.quantity then
    let money_earned := item.price * (input_quantity : Rat)
    let updated := { item with quantity := item.quantity - input_quantity }
    (if updated.quantity = 0 then none else some updated, money_earned)
  else
    (some item, 0)

/-- `Inventory::sell_item`'s search (lines 310-321): `std::find_if` for the
first item matching the entered name; `none` when absent. When found, the sale
is performed there via `remove_item_at` and the rest of the list is kept. -/
def sell_items (items : List Item) (name : String) (input_quantity : Int) :
    Option (List Item × Rat) :=
  match items with
  | [] => none
  | it :: rest =>
    if it.is_match name then
      match remove_item_at it input_quantity with
      | (none, money) => some (rest, money)
      | (some it1, money) => some (it1 :: rest, money)
    else
      match sell_items rest name input_quantity with
      | none => none
      | some (rest1, money) => some (it :: rest1, money)

/-- `Inventory::sell_item` on the whole state: an empty inventory or a missing
name changes nothing; otherwise the found entry is sold and the earned money is
added to `total_money`. -/
def Inventory.sell_item (inv : Inventory) (name : String) (input_quantity : Int) :
    Inventory :=
  if inv.items.isEmpty then inv
  else
    match sell_items inv.items name input_quantity with
    | none => inv
    | some (items1, money) =>
      { items := items1, total_money := inv.total_money + money }

/-- The re-prompt loop `while (!(std::cin >> quantity) || quantity <= 0)` over
a stream of candidate reads (`none` is a failed extraction): the first
successfully read strictly positive value is accepted; everything before it is
discarded. `none` overall when the stream runs out. -/
def read_quantity : List (Option Int) → Option Int
  | [] => none
  | o :: rest =>
    match o with
    | some v => if 0 < v then some v else read_quantity rest
    | none => read_quantity rest

/-- The re-prompt loop `while (!(std::cin >> price) || price < 0)` over a
stream of candidate reads: the first successfully read non-negative value is
accepted. -/
def read_price : List (Option Rat) → Option Rat
  | [] => none
  | o :: rest =>
    match o with
    | some v => if 0 ≤ v then some v else read_price rest
    | none => read_price rest

/-- The interactive `add_item` flow: quantity then price pass through their
re-prompt loops, and only accepted values reach the inventory state. -/
def add_item_console (inv : Inventory) (name : String) (qs : List (Option Int))
    (ps : List (Option Rat)) : Option Inventory :=
  match read_quantity qs with
  | none => none
  | some q =>
    match read_price ps with
    | none => none
    | some p => some (inv.add_item name q p)

/-- The interactive sell flow: the quantity to sell passes through the same
re-prompt loop before `sell_item` runs. -/
def sell_item_console (inv : Inventory) (name : String) (qs : List (Option Int)) :
    Option Inventory :=
  match read_quantity qs with
  | none => none
  | some q => some (inv.sell_item name q)

theorem add_item_items_of_no_match (items : List Item) (name : String) (q : Int) (p : Rat)
    (hnm : ∀ it ∈ items, it.name ≠ name) :
    add_item_items items name q p = items ++ [⟨name, q, p⟩] := by
  induction items with
  | nil => rfl
  | cons it rest ih =>
    have h1 : it.is_match name = false := by
      simp only [Item.is_match, beq_eq_false_iff_ne, ne_eq]
      exact hnm it (List.mem_cons_self it rest)
    simp only [add_item_items, h1, Bool.false_eq_true, if_false, List.cons_append,
      List.cons.injEq, true_and]
    exact ih (fun x hx => hnm x (List.mem_cons_of_mem it hx))

theorem add_item_items_of_match (pre : List Item) (it : Item) (post : List Item)
    (name : String) (q : Int) (p : Rat)
    (hpre : ∀ x ∈ pre, x.name ≠ name) (hit : it.name = name) :
    add_item_items (pre ++ it :: post) name q p =
      pre ++ { it with quantity := it.quantity + q } :: post := by
  induction pre with
  | nil =>
    have h1 : it.is_match name = true := by simp [Item.is_match, hit]
    simp [add_item_items, h1]
  | cons x rest ih =>
    have h1 : x.is_match name = false := by
      simp only [Item.is_match, beq_eq_false_iff_ne, ne_eq]
      exact hpre x (List.mem_cons_self x rest)
    simp only [List.cons_append, add_item_items, h1, Bool.false_eq_true, if_false,
      List.cons.injEq, true_and]
    exact ih (fun y hy => hpre y (List.mem_cons_of_mem x hy))

/-- Claim C7: an `add_item` whose entered name matches an existing entry (the
first such entry, as `std::find_if` finds it) creates no new entry and adds the
entered quantity to that entry; with no matching entry, a new item with the
entered name, quantity and price is appended at the back. -/
theorem add_item_merge_or_append (items pre post : List Item) (it : Item)
    (name : String) (q : Int) (p : Rat) :
    ((∀ x ∈ items, x.name ≠ name) →
      add_item_items items name q p = items ++ [⟨name, q, p⟩]) ∧
    (items = pre ++ it :: post → (∀ x ∈ pre, x.name ≠ name) → it.name = name →
      add_item_items items name q p =
        pre ++ { it with quantity := it.quantity + q } :: post) := by
  constructor
  · exact add_item_items_of_no_match items name q p
  · rintro rfl hpre hit
    exact add_item_items_of_match pre it post name q p hpre hit

/-- Witness for C7: adding "Pear" to an inventory holding only "Apple" appends
a new entry; adding "Apple" merges into the existing entry's quantity. -/
theorem add_item_merge_or_append_witness :
    add_item_items [⟨"Apple", 3, 2⟩] "Pear" 4 7 = [⟨"Apple", 3, 2⟩, ⟨"Pear", 4, 7⟩] ∧
    add_item_items [⟨"Apple", 3, 2⟩] "Apple" 2 5 = [⟨"Apple", 5, 2⟩] := by
  constructor
  · exact (add_item_merge_or_append [⟨"Apple", 3, 2⟩] [] [] ⟨"Apple", 3, 2⟩ "Pear" 4 7).1
      (by decide)
  · exact (add_item_merge_or_append [⟨"Apple", 3, 2⟩] [] [] ⟨"Apple", 3, 2⟩ "Apple" 2 5).2
      rfl (by simp) rfl

/-- Claim C10: when `add_item` merges into an existing entry, the entry keeps
its stored price (visible in the merged entry below), the result does not
depend on the newly entered price, and `total_money` is unchanged; all entries
other than the first match are untouched. -/
theorem add_item_merge_frame (inv : Inventory) (pre post : List Item) (it : Item)
    (name : String) (q : Int) (p p' : Rat) :
    inv.items = pre ++ it :: post → (∀ x ∈ pre, x.name ≠ name) → it.name = name →
    ((inv.add_item name q p).items =
        pre ++ { it with quantity := it.quantity + q } :: post ∧
      inv.add_item name q p = inv.add_item name q p' ∧
      (inv.add_item name q p).total_money = inv.total_money) := by
  intro hsplit hpre hit
  have h1 := add_item_items_of_match pre it post name q p hpre hit
  have h2 := add_item_items_of_match pre it post name q p' hpre hit
  refine ⟨?_, ?_, rfl⟩
  · simp [Inventory.add_item, hsplit, h1]
  · simp [Inventory.add_item, hsplit, h1, h2]

/-- Witness for C10: merging 2 more apples at entered price 5 (or 11) into an
"Apple" entry priced 2 keeps price 2, ignores the entered price, and leaves the
money total at 9. -/
theorem add_item_merge_frame_witness :
    (Inventory.add_item ⟨[⟨"Apple", 3, 2⟩], 9⟩ "Apple" 2 5).items = [⟨"Apple", 5, 2⟩] ∧
    Inventory.add_item ⟨[⟨"Apple", 3, 2⟩], 9⟩ "Apple" 2 5 =
      Inventory.add_item ⟨[⟨"Apple", 3, 2⟩], 9⟩ "Apple" 2 11 ∧
    (Inventory.add_item ⟨[⟨"Apple", 3, 2⟩], 9⟩ "Apple" 2 5).total_money = 9 :=
  add_item_merge_frame ⟨[⟨"Apple", 3, 2⟩], 9⟩ [] [] ⟨"Apple", 3, 2⟩ "Apple" 2 5 11
    rfl (by simp) rfl

theorem sell_items_erase (pre : List Item) (it : Item) (post : List Item)
    (name : String) (q : Int)
    (hpre : ∀ x ∈ pre, x.name ≠ name) (hit : it.name = name) (hq : q = it.quantity) :
    sell_items (pre ++ it :: post) name q = some (pre ++ post, it.price * (q : Rat)) := by
  induction pre with
  | nil =>
    have h1 : it.is_match name = true := by simp [Item.is_match, hit]
    subst hq
    simp [sell_items, h1, remove_item_at]
  | cons x rest ih =>
    have h1 : x.is_match name = false := by
      simp only [Item.is_match, beq_eq_false_iff_ne, ne_eq]
      exact hpre x (List.mem_cons_self x rest)
    have ih1 := ih (fun y hy => hpre y (List.mem_cons_of_mem x hy))
    simp [sell_items, h1, ih1]

theorem sell_items_dec (pre : List Item) (it : Item) (post : List Item)
    (name : String) (q : Int)
    (hpre : ∀ x ∈ pre, x.name ≠ name) (hit : it.name = name) (hq : q < it.quantity) :
    sell_items (pre ++ it :: post) name q =
      some (pre ++ { it with quantity := it.quantity - q } :: post,
        it.price * (q : Rat)) := by
  induction pre with
  | nil =>
    have h1 : it.is_match name = true := by simp [Item.is_match, hit]
    have h2 : q ≤ it.quantity := le_of_lt hq
    have h3 : ¬ (it.quantity - q = 0) := by omega
    simp [sell_items, h1, remove_item_at, h2, h3]
  | cons x rest ih =>
    have h1 : x.is_match name = false := by
      simp only [Item.is_match, beq_eq_false_iff_ne, ne_eq]
      exact hpre x (List.mem_cons_self x rest)
    have ih1 := ih (fun y hy => hpre y (List.mem_cons_of_mem x hy))
    simp [sell_items, h1, ih1]

/-- Claim C8: selling exactly the current quantity of an entry removes the
entry from the inventory entirely; selling fewer units only decrements the
quantity and keeps the entry. -/
theorem sell_item_exact_and_partial (inv : Inventory) (pre post : List Item)
    (it : Item) (name : String) (q : Int) :
    inv.items = pre ++ it :: post → (∀ x ∈ pre, x.name ≠ name) → it.name = name →
    ((q = it.quantity → (inv.sell_item name q).items = pre ++ post) ∧
      (q < it.quantity →
        (inv.sell_item name q).items =
          pre ++ { it with quantity := it.quantity - q } :: post)) := by
  intro hsplit hpre hit
  have hne : inv.items.isEmpty = false := by
    rw [hsplit]; cases pre <;> rfl
  constructor
  · intro hq
    have h := sell_items_erase pre it post name q hpre hit hq
    simp [Inventory.sell_item, hne, hsplit, h]
  · intro hq
    have h := sell_items_dec pre it post name q hpre hit hq
    simp [Inventory.sell_item, hne, hsplit, h]

/-- Witness for C8: selling all 3 apples erases the entry; selling 1 of 3
leaves the entry at quantity 2. -/
theorem sell_item_exact_and_partial_witness :
    (Inventory.sell_item ⟨[⟨"Apple", 3, 2⟩], 0⟩ "Apple" 3).items = [] ∧
    (Inventory.sell_item ⟨[⟨"Apple", 3, 2⟩], 0⟩ "Apple" 1).items = [⟨"Apple", 2, 2⟩] := by
  obtain ⟨h1, _⟩ := sell_item_exact_and_partial ⟨[⟨"Apple", 3, 2⟩], 0⟩ [] []
    ⟨"Apple", 3, 2⟩ "Apple" 3 rfl (by simp) rfl
  obtain ⟨_, h2⟩ := sell_item_exact_and_partial ⟨[⟨"Apple", 3, 2⟩], 0⟩ [] []
    ⟨"Apple", 3, 2⟩ "Apple" 1 rfl (by simp) rfl
  exact ⟨h1 rfl, h2 (by decide)⟩

/-- Claim C9: the add-item and sell-item prompts only ever accept a strictly
positive quantity and a non-negative price; a non-positive quantity or a
negative price (or a failed read) is skipped by the re-prompt loop, and the
inventory state is only ever updated with accepted values. -/
theorem validation_contract (qs : List (Option Int)) (ps : List (Option Rat))
    (inv : Inventory) (name : String) (v w : Int) (p r : Rat) :
    (read_quantity qs = some v → 0 < v) ∧
    (read_price ps = some p → 0 ≤ p) ∧
    (w ≤ 0 → read_quantity (some w :: qs) = read_quantity qs) ∧
    (r < 0 → read_price (some r :: ps) = read_price ps) ∧
    (read_quantity (none :: qs) = read_quantity qs) ∧
    (read_price (none :: ps) = read_price ps) ∧
    (∀ q pr, read_quantity qs = some q → read_price ps = some pr →
      add_item_console inv name qs ps = some (inv.add_item name q pr)) ∧
    (∀ q, read_quantity qs = some q →
      sell_item_console inv name qs = some (inv.sell_item name q)) := by
  refine ⟨?_, ?_, fun hw => ?_, fun hr => ?_, rfl, rfl,
    fun q pr hq hp => ?_, fun q hq => ?_⟩
  · induction qs with
    | nil => intro h; simp [read_quantity] at h
    | cons o rest ih =>
      intro h
      match o with
      | some u =>
        simp only [read_quantity] at h
        by_cases hu : 0 < u
        · rw [if_pos hu] at h
          cases h
          exact hu
        · rw [if_neg hu] at h
          exact ih h
      | none =>
        simp only [read_quantity] at h
        exact ih h
  · induction ps with
    | nil => intro h; simp [read_price] at h
    | cons o rest ih =>
      intro h
      match o with
      | some u =>
        simp only [read_price] at h
        by_cases hu : 0 ≤ u
        · rw [if_pos hu] at h
          cases h
          exact hu
        · rw [if_neg hu] at h
          exact ih h
      | none =>
        simp only [read_price] at h
        exact ih h
  · simp only [read_quantity]
    rw [if_neg (by omega)]
  · simp only [read_price]
    rw [if_neg (by exact not_le.mpr hr)]
  · simp [add_item_console, hq, hp]
  · simp [sell_item_console, hq]

/-- Witness for C9: a stream with a failed read and the rejected quantity -2
accepts 3; a stream with the rejected price -1 accepts 2; the console flows
commit exactly the accepted values. -/
theorem validation_contract_witness :
    (0 : Int) < 3 ∧
    (0 : Rat) ≤ 2 ∧
    read_quantity [some 0, none, some (-2), some 3] =
      read_quantity [none, some (-2), some 3] ∧
    read_price [some (-1), none, some 2] = read_price [none, some 2] ∧
    read_quantity [none, none, some (-2), some 3] =
      read_quantity [none, some (-2), some 3] ∧
    read_price [none, none, some 2] = read_price [none, some 2] ∧
    add_item_console ⟨[], 0⟩ "Apple" [none, some (-2), some 3] [none, some 2] =
      some (Inventory.add_item ⟨[], 0⟩ "Apple" 3 2) ∧
    sell_item_console ⟨[], 0⟩ "Apple" [none, some (-2), some 3] =
      some (Inventory.sell_item ⟨[], 0⟩ "Apple" 3) := by
  obtain ⟨h1, h2, h3, h4, h5, h6, h7, h8⟩ :=
    validation_contract [none, some (-2), some 3] [none, some 2] ⟨[], 0⟩ "Apple"
      3 0 2 (-1)
  exact ⟨h1 (by decide), h2 (by norm_num [read_price]), h3 (by decide),
    h4 (by norm_num), h5, h6, h7 3 2 (by decide) (by norm_num [read_price]),
    h8 3 (by decide)⟩

end InventoryApp
